import Mathlib

/-
Verification of the iteratedc library (src/iteratedc): a shallow embedding
of the data model and the algorithms of tree.py, iterators.py, visitor.py
and the package entry points, followed by theorems checking the
specification claims against that embedding.

Modelling conventions:
  * Python values relevant to the library are embedded as the inductive
    type PyVal (None, ints, strings, bools, lists, dicts and dataclass
    instances).  A dataclass instance carries its class object
    (DataClassDef: class name plus declared fields) and its field values
    in declaration order.
  * Declared field types are PyType.  A type is either a dataclass class
    object, a plain non-generic class (int, str, ...) or a generic alias
    carrying the flag issubclass(origin, collections.abc.Iterable) and its
    type arguments.  Generic aliases whose origin is not a class (for
    example typing.Union, on which issubclass raises) are outside this
    model and never appear in the theorems below.
  * Exceptions are modelled with Except PyError.  Recursive Python
    functions receive a fuel argument; running out of fuel is the
    distinguished error fuelExhausted (Python would raise RecursionError
    on exceeding the interpreter stack); every theorem either quantifies
    over the fuel or uses a concrete fuel large enough for its input.
  * Python object identity of tree nodes (used by the visited sets of the
    iterators, since Node defines no custom equality) is modelled by a
    numeric id stamped on every Node; the tree builder allocates fresh
    ids, so theorems about hand-written trees assume the ids are distinct.
-/

namespace Iteratedc

/-- Declared type of a dataclass field (the runtime type object stored in
Field.type).  dcType names a dataclass class object; simple is any other
plain class; generic is a parameterized generic alias, with the flag
recording issubclass(origin of the alias, collections.abc.Iterable). -/
inductive PyType where
  | dcType (name : String)
  | simple (name : String)
  | generic (originIsIterable : Bool) (args : List PyType)

/-- One dataclasses.Field descriptor: name, declared type and the set of
metadata keys present in its metadata mapping (the library never reads
metadata values, only this code-irrelevant key set is kept). -/
structure FieldDef where
  name : String
  ty : PyType
  metadata : List String

/-- A dataclass class object: its name and its declared fields in
declaration order (what dataclasses.fields returns). -/
structure DataClassDef where
  name : String
  flds : List FieldDef

/-- Embedded Python values.  dcinst cls vals is an instance of the
dataclass cls whose field values, in declaration order, are vals.
pylist covers the list and tuple containers, which dataclasses.asdict
converts element-wise; pydeque covers iterable containers such as
collections.deque that asdict merely deep-copies, leaving any dataclass
instances inside them unconverted. -/
inductive PyVal where
  | none
  | int (n : Int)
  | str (s : String)
  | boolv (b : Bool)
  | pylist (elems : List PyVal)
  | pydeque (elems : List PyVal)
  | pydict (entries : List (String × PyVal))
  | dcinst (cls : DataClassDef) (vals : List PyVal)

/-- Models dataclasses.is_dataclass applied to a value: true exactly on
dataclass instances.  (All class objects of the model are separate from
PyVal, so the instance-or-class disjunction collapses to this test.) -/
def is_dataclass : PyVal → Bool
  | .dcinst _ _ => true
  | _ => false

/-- Models dataclasses.is_dataclass applied to a type object stored in
Field.type: true exactly on dataclass class objects. -/
def is_dataclass_type : PyType → Bool
  | .dcType _ => true
  | _ => false

/-- Models typing.get_args: the type arguments of a generic alias, and the
empty tuple on anything that is not a generic alias. -/
def get_args : PyType → List PyType
  | .generic _ args => args
  | _ => []

/-- Embeds tree.py _is_generic_collection_type: the type has an
origin attribute, the origin is a subclass of collections.abc.Iterable,
and get_args is non-empty. -/
def is_generic_collection_type : PyType → Bool
  | .generic originIsIterable args => originIsIterable && args.length > 0
  | _ => false

mutual
/-- Models dataclasses.asdict recursion (_asdict_inner): dataclass
instances become dicts keyed by field name, lists (and tuples) and dicts
are converted element-wise, every other value - deques included - is
deep-copied, which preserves it unchanged in this pure model, dataclass
elements and all. -/
def asdictVal : PyVal → PyVal
  | .none => .none
  | .int n => .int n
  | .str s => .str s
  | .boolv b => .boolv b
  | .pylist xs => .pylist (asdictValList xs)
  | .pydeque xs => .pydeque xs
  | .pydict es => .pydict (asdictValEntries es)
  | .dcinst cls vals => .pydict (asdictFields cls.flds vals)

/-- Element-wise asdict conversion of a Python list. -/
def asdictValList : List PyVal → List PyVal
  | [] => []
  | x :: xs => asdictVal x :: asdictValList xs

/-- Entry-wise asdict conversion of a Python dict. -/
def asdictValEntries : List (String × PyVal) → List (String × PyVal)
  | [] => []
  | e :: es => (e.1, asdictVal e.2) :: asdictValEntries es

/-- The dict produced by asdict for a dataclass instance: one entry per
declared field, keyed by the field name, holding the converted value. -/
def asdictFields : List FieldDef → List PyVal → List (String × PyVal)
  | _, [] => []
  | [], _ :: _ => []
  | f :: fs, v :: vs => (f.name, asdictVal v) :: asdictFields fs vs
end

/-- Dict subscript lookup by key, first match.  A missing key would be a
KeyError in Python; it cannot occur for the dict produced by asdict on a
well-formed instance, and the model returns None there. -/
def lookupName : List (String × PyVal) → String → PyVal
  | [], _ => .none
  | e :: es, key => if e.1 = key then e.2 else lookupName es key

/-- Iteration over a runtime container value (the for-item-in-items loop
of the second discovery pass).  Lists and deques are iterated in element
order; in Python a non-iterable value there would raise TypeError, and
the theorems that touch container fields constrain their runtime values
accordingly. -/
def iterElems : PyVal → List PyVal
  | .pylist xs => xs
  | .pydeque xs => xs
  | _ => []

/-- Running index starting at n, pairing each element with its index;
used to model the i = i + 1 counter of the second discovery pass. -/
def enumFrom {α : Type} : Nat → List α → List (Nat × α)
  | _, [] => []
  | n, x :: xs => (n, x) :: enumFrom (n + 1) xs

/-- Embeds tree.py _FieldValueWithMetaData: a discovered child value, the
originating Field (None for a tree root) and the 1-based container index
(None for a direct field child). -/
structure FieldValueWithMetaData where
  value : PyVal
  corresponding_field : Option FieldDef
  field_index : Option Nat

/-- One step of the first discovery pass of _iterate_over_current_item:
a field whose declared type is a dataclass yields the asdict-converted
value for that field with index None. -/
def firstPassField (dcv : List (String × PyVal)) (fld : FieldDef) :
    List FieldValueWithMetaData :=
  if is_dataclass_type fld.ty then
    [⟨lookupName dcv fld.name, some fld, Option.none⟩]
  else []

/-- One step of the second discovery pass of _iterate_over_current_item:
a generic collection field is skipped when it has several type arguments;
otherwise, when its single type argument is a dataclass, the field value
taken from the asdict dict is iterated, yielding each item with a 1-based
running index. -/
def secondPassField (dcv : List (String × PyVal)) (fld : FieldDef) :
    List FieldValueWithMetaData :=
  if is_generic_collection_type fld.ty then
    let args := get_args fld.ty
    if args.length > 1 then
      []
    else
      match args.head? with
      | Option.none => []
      | some type_arg =>
        if is_dataclass_type type_arg then
          let items := iterElems (lookupName dcv fld.name)
          (enumFrom 1 items).map fun p => ⟨p.2, some fld, some p.1⟩
        else []
  else []

/-- Embeds tree.py _iterate_over_current_item: empty for None or a
non-dataclass argument; otherwise the field values are read from
asdict(data_class) and the two passes run over the declared fields in
order, the first pass for every field before the second pass starts. -/
def iterate_over_current_item : PyVal → List FieldValueWithMetaData
  | .dcinst cls vals =>
    let dcv := asdictFields cls.flds vals
    (cls.flds.flatMap (firstPassField dcv)) ++
      (cls.flds.flatMap (secondPassField dcv))
  | _ => []

/-- Embeds tree.py Node: the wrapped _FieldValueWithMetaData, the child
nodes, and a numeric id modelling Python object identity (Node defines no
custom equality, so the visited sets of the iterators compare objects by
identity). -/
inductive Node where
  | mk (value : FieldValueWithMetaData) (id : Nat) (children : List Node)

/-- Wrapped field record of a node. -/
def Node.value : Node → FieldValueWithMetaData
  | .mk v _ _ => v

/-- Identity stamp of a node. -/
def Node.id : Node → Nat
  | .mk _ i _ => i

/-- Child nodes of a node. -/
def Node.children : Node → List Node
  | .mk _ _ cs => cs

/-- Embeds the Node.item property: the wrapped field value. -/
def Node.item (n : Node) : PyVal :=
  n.value.value

/-- Embeds the Node.item_index property. -/
def Node.item_index (n : Node) : Option Nat :=
  n.value.field_index

/-- Embeds tree.py Tree: a root node. -/
structure Tree where
  root : Node

/-- Errors raised by the embedded code.  valueError and typeError model
the Python exceptions of the same names; fuelExhausted models exceeding
the recursion or step budget (RecursionError) and is never reached at the
fuel values used by the theorems below. -/
inductive PyError where
  | valueError
  | typeError
  | fuelExhausted
  deriving Repr, DecidableEq

mutual
/-- Embeds tree.py _create_node_from_item: raises ValueError unless the
carried value is a dataclass instance, then recursively builds one child
node per discovered child, in order, and wraps them in a new Node.  The
Nat argument after the item is the next free identity stamp; the built
node receives the stamp allocated after all its children, and the
successor stamp is returned.  (The initial field_with_meta-is-None check
of the source cannot arise here, the argument being a structure.) -/
def create_node_from_item :
    Nat → FieldValueWithMetaData → Nat → Except PyError (Node × Nat)
  | 0, _, _ => .error .fuelExhausted
  | fuel + 1, fvm, nid =>
    match fvm.value with
    | .dcinst _ _ =>
      match create_nodes_from_items fuel (iterate_over_current_item fvm.value) nid with
      | .error e => .error e
      | .ok (children, nid1) => .ok (.mk fvm nid1 children, nid1 + 1)
    | _ => .error .valueError
/-- The child-building loop of _create_node_from_item, threading the
identity counter left to right. -/
def create_nodes_from_items :
    Nat → List FieldValueWithMetaData → Nat → Except PyError (List Node × Nat)
  | 0, _, _ => .error .fuelExhausted
  | _ + 1, [], nid => .ok ([], nid)
  | fuel + 1, fvm :: rest, nid =>
    match create_node_from_item fuel fvm nid with
    | .error e => .error e
    | .ok (n, nid1) =>
      match create_nodes_from_items fuel rest nid1 with
      | .error e => .error e
      | .ok (ns, nid2) => .ok (n :: ns, nid2)
end

/-- Embeds tree.py create_tree_from_dataclass: None for a None or
non-dataclass argument, otherwise the tree grown from the root item
(which may raise out of _create_node_from_item). -/
def create_tree_from_dataclass (fuel : Nat) (v : PyVal) :
    Except PyError (Option Tree) :=
  match v with
  | .dcinst cls vals =>
    match create_node_from_item fuel ⟨.dcinst cls vals, Option.none, Option.none⟩ 0 with
    | .error e => .error e
    | .ok (n, _) => .ok (some ⟨n⟩)
  | _ => .ok Option.none

/-- Embeds iterators.py IterationMode (the source spells the first member
BREAD_FIRST_SEARCH). -/
inductive IterationMode where
  | breadFirstSearch
  | preOrderDepthFirstSearch
  | postOrderDepthFirstSearch
  | reversePreOrderDepthFirstSearch
  | reversePostOrderDepthFirstSearch
  deriving Repr, DecidableEq

/-- The while loop of _BreathFirstDataClassIterator.
_build_ordered_node_collection, with the traversal queue, the visited set
(of node identities) and the result accumulator made explicit.  Each
queue entry pairs a node with the stack of its ancestors; an unvisited
node is appended to the result and its children are enqueued with the
extended stack. -/
def bfsLoop :
    Nat → List (Node × List Node) → List Nat → List (Node × List Node) →
    Except PyError (List (Node × List Node))
  | 0, _, _, _ => .error .fuelExhausted
  | _ + 1, [], _, result => .ok result
  | fuel + 1, (current, stack) :: rest, visited, result =>
    if current.id ∈ visited then
      bfsLoop fuel rest visited result
    else
      bfsLoop fuel
        (rest ++ current.children.map fun c => (c, stack ++ [current]))
        (current.id :: visited)
        (result ++ [(current, stack)])

/-- Embeds _BreathFirstDataClassIterator._build_ordered_node_collection:
the loop started on the root with an empty stack, visited set and
result. -/
def bfsCollection (fuel : Nat) (t : Tree) :
    Except PyError (List (Node × List Node)) :=
  bfsLoop fuel [(t.root, [])] [] []

mutual
/-- Embeds _PreOrderDepthFirstDataClassIterator._build_queue.  The source
appends (node, copy of stack) to a local result deque, pushes the node on
the shared stack, recurses into the children, and then calls
stack.pop(node); collections.deque.pop accepts no argument, so that call
raises TypeError, which is modelled by the error on the ok branch of the
children loop.  (Were that line ever passed, the source would still
return a fresh empty deque, discarding the local result.)  A node already
in the visited set yields an empty deque with no mutation. -/
def preBuildQueue :
    Nat → Node → List Node → List Nat →
    Except PyError (List (Node × List Node) × List Node × List Nat)
  | 0, _, _, _ => .error .fuelExhausted
  | fuel + 1, node, stack, visited =>
    if node.id ∈ visited then
      .ok ([], stack, visited)
    else
      match preBuildQueueChildren fuel node.children
          [(node, stack)] (stack ++ [node]) (node.id :: visited) with
      | .error e => .error e
      | .ok _ => .error .typeError

/-- The for-child loop of the pre-order _build_queue, threading the local
result, the shared stack and the shared visited set. -/
def preBuildQueueChildren :
    Nat → List Node → List (Node × List Node) → List Node → List Nat →
    Except PyError (List (Node × List Node) × List Node × List Nat)
  | 0, _, _, _, _ => .error .fuelExhausted
  | _ + 1, [], result, stack, visited => .ok (result, stack, visited)
  | fuel + 1, c :: cs, result, stack, visited =>
    match preBuildQueue fuel c stack visited with
    | .error e => .error e
    | .ok (items, stack1, visited1) =>
      preBuildQueueChildren fuel cs (result ++ items) stack1 visited1
end

mutual
/-- Embeds _PostOrderDepthFirstDataClassIterator._build_queue.  Same
shape as the pre-order variant, except that the node itself would only be
appended to the local result after the children; the appending line sits
after the stack.pop(node) call, which raises TypeError first
(collections.deque.pop accepts no argument). -/
def postBuildQueue :
    Nat → Node → List Node → List Nat →
    Except PyError (List (Node × List Node) × List Node × List Nat)
  | 0, _, _, _ => .error .fuelExhausted
  | fuel + 1, node, stack, visited =>
    if node.id ∈ visited then
      .ok ([], stack, visited)
    else
      match postBuildQueueChildren fuel node.children
          [] (stack ++ [node]) (node.id :: visited) with
      | .error e => .error e
      | .ok _ => .error .typeError

/-- The for-child loop of the post-order _build_queue. -/
def postBuildQueueChildren :
    Nat → List Node → List (Node × List Node) → List Node → List Nat →
    Except PyError (List (Node × List Node) × List Node × List Nat)
  | 0, _, _, _, _ => .error .fuelExhausted
  | _ + 1, [], result, stack, visited => .ok (result, stack, visited)
  | fuel + 1, c :: cs, result, stack, visited =>
    match postBuildQueue fuel c stack visited with
    | .error e => .error e
    | .ok (items, stack1, visited1) =>
      postBuildQueueChildren fuel cs (result ++ items) stack1 visited1

end

/-- Embeds _PreOrderDepthFirstDataClassIterator.
_build_ordered_node_collection: run _build_queue on the root with a fresh
stack and visited set, reversing the returned deque in reverse mode. -/
def preOrderCollection (fuel : Nat) (t : Tree) (reverse : Bool) :
    Except PyError (List (Node × List Node)) :=
  match preBuildQueue fuel t.root [] [] with
  | .error e => .error e
  | .ok (result, _, _) => .ok (if reverse then result.reverse else result)

/-- Embeds _PostOrderDepthFirstDataClassIterator.
_build_ordered_node_collection. -/
def postOrderCollection (fuel : Nat) (t : Tree) (reverse : Bool) :
    Except PyError (List (Node × List Node)) :=
  match postBuildQueue fuel t.root [] [] with
  | .error e => .error e
  | .ok (result, _, _) => .ok (if reverse then result.reverse else result)

/-- Embeds visitor.py NodeElement: a visited node together with the tuple
of its ancestor nodes. -/
structure NodeElement where
  node : Node
  parent_nodes : List Node

/-- Embeds _DataClassIteratorBase.__build: each (node, stack) pair of the
ordered collection is wrapped as a NodeElement. -/
def buildElements (coll : List (Node × List Node)) : List NodeElement :=
  coll.map fun p => ⟨p.1, p.2⟩

/-- Embeds DataClassIterable.__iter__ followed by draining the chosen
iterator: the mode selects the ordered node collection, whose entries are
wrapped as NodeElements (the source materializes the same list inside
__build before yielding). -/
def iterForMode (fuel : Nat) (t : Tree) : IterationMode →
    Except PyError (List NodeElement)
  | .breadFirstSearch => (bfsCollection fuel t).map buildElements
  | .preOrderDepthFirstSearch =>
    (preOrderCollection fuel t false).map buildElements
  | .postOrderDepthFirstSearch =>
    (postOrderCollection fuel t false).map buildElements
  | .reversePreOrderDepthFirstSearch =>
    (preOrderCollection fuel t true).map buildElements
  | .reversePostOrderDepthFirstSearch =>
    (postOrderCollection fuel t true).map buildElements

/-- The class object of iterators.py _RootNode: a single field named
nodes, declared as Iterable annotated with str, tagged with the
iteratedc_skip metadata key. -/
def rootNodeDef : DataClassDef :=
  ⟨"_RootNode", [⟨"nodes", .generic true [.simple "str"], ["iteratedc_skip"]⟩]⟩

/-- Embeds DataClassIterable.__init__: a single positional argument is
used as the work tree directly, several (or zero) arguments are wrapped
in a fresh _RootNode instance; a None result of
create_tree_from_dataclass raises ValueError.  (The subsequent
mode-validity test always passes, IterationMode being closed here.) -/
def dataClassIterableInit (fuel : Nat) (args : List PyVal) :
    Except PyError Tree :=
  let work_tree : PyVal :=
    if args.length = 1 then args.headD .none
    else .dcinst rootNodeDef [.pylist args]
  match create_tree_from_dataclass fuel work_tree with
  | .error e => .error e
  | .ok Option.none => .error .valueError
  | .ok (some t) => .ok t

/-- A DataClassIterable built from positional arguments and then drained
in the given mode: construction errors surface before any element is
produced, exactly as in the source where __init__ raises before __iter__
can run. -/
def dataClassIterableElements (fuel : Nat) (args : List PyVal)
    (mode : IterationMode) : Except PyError (List NodeElement) :=
  match dataClassIterableInit fuel args with
  | .error e => .error e
  | .ok t => iterForMode fuel t mode

/-- Embeds the package entry point iterate_over_data_class: the value is
passed as the sole positional argument of DataClassIterable. -/
def iterate_over_data_class (fuel : Nat) (v : PyVal) (mode : IterationMode) :
    Except PyError (List NodeElement) :=
  dataClassIterableElements fuel [v] mode

/-- Embeds the package entry point iterate_over_data_classes: the whole
sequence is passed as one positional argument of DataClassIterable (so it
is never unpacked into several arguments). -/
def iterate_over_data_classes (fuel : Nat) (vs : PyVal) (mode : IterationMode) :
    Except PyError (List NodeElement) :=
  dataClassIterableElements fuel [vs] mode

/-- Embeds the package entry point flatten_hierarchy: the iterator of
iterate_over_data_class drained into a list (which it already is in this
embedding). -/
def flatten_hierarchy (fuel : Nat) (v : PyVal) (mode : IterationMode) :
    Except PyError (List NodeElement) :=
  iterate_over_data_class fuel v mode

/-- PathPair r n anc holds when anc is the sequence of nodes on the path
from the root r down to n, in root-to-parent order and excluding n
itself: the ancestor chain of the data model.  It is empty exactly for
the root. -/
inductive PathPair : Node → Node → List Node → Prop where
  | here (r : Node) : PathPair r r []
  | step {r c n : Node} {anc : List Node} :
      c ∈ r.children → PathPair c n anc → PathPair r n (r :: anc)

mutual
/-- All node identity stamps occurring in a tree, root first. -/
def nodeIds : Node → List Nat
  | .mk _ i cs => i :: nodeIdsList cs

/-- Identity stamps of a forest, left to right. -/
def nodeIdsList : List Node → List Nat
  | [] => []
  | c :: cs => nodeIds c ++ nodeIdsList cs
end

/-- Written from the specification text (claims C2 and C7): the declared
type is a generic container parameterized by exactly one type argument
and that type argument is a structured record type. -/
def isSingleRecordContainerType : PyType → Bool
  | .generic originIsIterable [t] => originIsIterable && is_dataclass_type t
  | _ => false

/-- Written from the specification text of claim C7, for comparison with
the discovery pass of the source: given the declared fields paired with
their runtime values in declaration order, first one entry with index
None per record-typed field, in declaration order; then, per
single-record-container field, one entry per element of its runtime value
with the 1-based element index.  Only the originating field and the
position are described by the claim, so the entries carry just those. -/
def specDiscoveryPairs (fvs : List (FieldDef × PyVal)) :
    List (Option FieldDef × Option Nat) :=
  ((fvs.filter fun p => is_dataclass_type p.1.ty).map fun p =>
      ((some p.1 : Option FieldDef), (Option.none : Option Nat)))
    ++ fvs.flatMap fun p =>
      if isSingleRecordContainerType p.1.ty then
        (enumFrom 1 (iterElems p.2)).map fun q => (some p.1, some q.1)
      else []

/-- Sample dataclass C with no fields. -/
def clsC : DataClassDef := ⟨"C", []⟩

/-- Sample instance C(). -/
def cInst : PyVal := .dcinst clsC []

/-- A field child declared with the dataclass type C. -/
def fldChild : FieldDef := ⟨"child", .dcType "C", []⟩

/-- Sample dataclass P with the single record-typed field child. -/
def clsP : DataClassDef := ⟨"P", [fldChild]⟩

/-- Sample instance P(C()). -/
def pInst : PyVal := .dcinst clsP [cInst]

/-- Sample dataclass Simple with three int fields, as in the repository
test suite. -/
def clsSimple : DataClassDef :=
  ⟨"Simple", [⟨"a", .simple "int", []⟩, ⟨"b", .simple "int", []⟩,
    ⟨"c", .simple "int", []⟩]⟩

/-- Sample instance Simple(1, 2, 3). -/
def simpleInst : PyVal := .dcinst clsSimple [.int 1, .int 2, .int 3]

/-- A record-typed field tagged with the iteratedc_skip metadata key. -/
def fldChildSkip : FieldDef := ⟨"child", .dcType "C", ["iteratedc_skip"]⟩

/-- A container-of-record field tagged with the iteratedc_skip metadata
key. -/
def fldItemsSkip : FieldDef :=
  ⟨"items", .generic true [.dcType "C"], ["iteratedc_skip"]⟩

/-- Sample dataclass whose two fields are both tagged iteratedc_skip. -/
def clsSkip : DataClassDef := ⟨"Skip", [fldChildSkip, fldItemsSkip]⟩

/-- Sample instance Skip(C(), [C()]). -/
def skipInst : PyVal := .dcinst clsSkip [cInst, .pylist [cInst]]

/-- Sample record A(1). -/
def recA : PyVal := .dcinst ⟨"A", [⟨"x", .simple "int", []⟩]⟩ [.int 1]

/-- Sample record B(2). -/
def recB : PyVal := .dcinst ⟨"B", [⟨"y", .simple "int", []⟩]⟩ [.int 2]

/-- A hand-built one-node tree wrapping Simple(1, 2, 3), as the tree
builder would produce for it. -/
def simpleTree : Tree :=
  ⟨.mk ⟨simpleInst, Option.none, Option.none⟩ 0 []⟩

/-- A hand-built two-node tree: a P root with one C child, the shape the
specification uses in its two-node traversal example. -/
def twoTree : Tree :=
  ⟨.mk ⟨pInst, Option.none, Option.none⟩ 1
    [.mk ⟨cInst, some fldChild, Option.none⟩ 0 []]⟩

/-- An untagged container-of-record field holding three elements. -/
def fldItems3 : FieldDef := ⟨"items", .generic true [.dcType "C"], []⟩

/-- A generic field with two type arguments, skipped by discovery. -/
def fldPair : FieldDef :=
  ⟨"pair", .generic true [.dcType "C", .simple "int"], []⟩

/-- A plain int field. -/
def fldNum : FieldDef := ⟨"n", .simple "int", []⟩

/-- Sample dataclass H mixing a record field, a three-element container
field, a two-argument generic field and an int field. -/
def clsH : DataClassDef := ⟨"H", [fldChild, fldItems3, fldPair, fldNum]⟩

/-- Sample instance H(C(), [C(), C(), C()], [C()], 5). -/
def hInst : PyVal :=
  .dcinst clsH [cInst, .pylist [cInst, cInst, cInst], .pylist [cInst], .int 5]

/-- Sample dataclass D with the single field items declared as a
single-parameter container of the dataclass C (the type alias Deque
annotated with C has origin collections.deque, a subclass of Iterable,
so it is indistinguishable from List annotated with C to the discovery
checks). -/
def clsDq : DataClassDef := ⟨"D", [fldItems3]⟩

/-- Sample instance D(deque([C()])): the container field holds a
non-empty deque of dataclass instances at runtime. -/
def dqInst : PyVal := .dcinst clsDq [.pydeque [cInst]]

theorem preBuildQueue_isError (fuel : Nat) (node : Node) (stack : List Node)
    (visited : List Nat) (h : node.id ∉ visited) :
    ∃ e, preBuildQueue fuel node stack visited = .error e := by
  cases fuel with
  | zero => exact ⟨.fuelExhausted, rfl⟩
  | succ n =>
    simp only [preBuildQueue, if_neg h]
    cases preBuildQueueChildren n node.children [(node, stack)]
        (stack ++ [node]) (node.id :: visited) with
    | error e => exact ⟨e, rfl⟩
    | ok x => exact ⟨.typeError, rfl⟩

theorem postBuildQueue_isError (fuel : Nat) (node : Node) (stack : List Node)
    (visited : List Nat) (h : node.id ∉ visited) :
    ∃ e, postBuildQueue fuel node stack visited = .error e := by
  cases fuel with
  | zero => exact ⟨.fuelExhausted, rfl⟩
  | succ n =>
    simp only [postBuildQueue, if_neg h]
    cases postBuildQueueChildren n node.children []
        (stack ++ [node]) (node.id :: visited) with
    | error e => exact ⟨e, rfl⟩
    | ok x => exact ⟨.typeError, rfl⟩

theorem preOrderCollection_isError (fuel : Nat) (t : Tree) (reverse : Bool) :
    ∃ e, preOrderCollection fuel t reverse = .error e := by
  obtain ⟨e, he⟩ := preBuildQueue_isError fuel t.root [] [] (by simp)
  exact ⟨e, by simp [preOrderCollection, he]⟩

theorem postOrderCollection_isError (fuel : Nat) (t : Tree) (reverse : Bool) :
    ∃ e, postOrderCollection fuel t reverse = .error e := by
  obtain ⟨e, he⟩ := postBuildQueue_isError fuel t.root [] [] (by simp)
  exact ⟨e, by simp [postOrderCollection, he]⟩

theorem PathPair.extend {r n c : Node} {anc : List Node}
    (h : PathPair r n anc) (hc : c ∈ n.children) : PathPair r c (anc ++ [n]) := by
  induction h with
  | here r => simpa using PathPair.step hc (PathPair.here c)
  | step hmem _ ih => exact PathPair.step hmem (ih hc)

theorem bfsLoop_sound (root : Node) (fuel : Nat) :
    ∀ (queue : List (Node × List Node)) (visited : List Nat)
      (acc res : List (Node × List Node)),
      bfsLoop fuel queue visited acc = .ok res →
      (∀ p ∈ queue, PathPair root p.1 p.2) →
      (∀ p ∈ acc, PathPair root p.1 p.2) →
      ∀ p ∈ res, PathPair root p.1 p.2 := by
  induction fuel with
  | zero =>
    intro queue visited acc res h
    simp [bfsLoop] at h
  | succ n ih =>
    intro queue visited acc res h hq ha
    cases queue with
    | nil =>
      simp only [bfsLoop, Except.ok.injEq] at h
      exact h ▸ ha
    | cons head rest =>
      obtain ⟨current, stack⟩ := head
      by_cases hv : current.id ∈ visited
      · simp only [bfsLoop, if_pos hv] at h
        exact ih rest visited acc res h
          (fun p hp => hq p (List.mem_cons_of_mem _ hp)) ha
      · simp only [bfsLoop, if_neg hv] at h
        refine ih _ _ _ _ h ?_ ?_
        · intro p hp
          rcases List.mem_append.mp hp with h1 | h2
          · exact hq p (List.mem_cons_of_mem _ h1)
          · obtain ⟨c, hcmem, rfl⟩ := List.mem_map.mp h2
            exact PathPair.extend (hq (current, stack) (List.mem_cons_self _ _)) hcmem
        · intro p hp
          rcases List.mem_append.mp hp with h1 | h2
          · exact ha p h1
          · rcases List.mem_singleton.mp h2 with rfl
            exact hq (current, stack) (List.mem_cons_self _ _)

theorem sizeOf_lt_of_mem_children {c p : Node} (h : c ∈ p.children) :
    sizeOf c < sizeOf p := by
  cases p with
  | mk v i cs =>
    simp only [Node.children] at h
    have h1 : sizeOf c < sizeOf cs := List.sizeOf_lt_of_mem h
    simp only [Node.mk.sizeOf_spec]
    omega

theorem PathPair.le_sizeOf {r n : Node} {anc : List Node} (h : PathPair r n anc) :
    sizeOf n ≤ sizeOf r := by
  induction h with
  | here r => exact le_refl _
  | step hmem _ ih => exact le_trans ih (le_of_lt (sizeOf_lt_of_mem_children hmem))

theorem nodeIdsList_eq_flatMap (cs : List Node) :
    nodeIdsList cs = cs.flatMap nodeIds := by
  induction cs with
  | nil => simp [nodeIdsList]
  | cons c cs ih => simp [nodeIdsList, ih]

theorem nodeIds_def (n : Node) :
    nodeIds n = n.id :: n.children.flatMap nodeIds := by
  cases n with
  | mk v i cs => simp [nodeIds, Node.id, Node.children, nodeIdsList_eq_flatMap]

theorem PathPair.id_mem {r n : Node} {anc : List Node} (h : PathPair r n anc) :
    n.id ∈ nodeIds r := by
  induction h with
  | here r => rw [nodeIds_def]; exact (List.mem_cons_self _ _)
  | step hmem _ ih =>
    rw [nodeIds_def]
    exact List.mem_cons_of_mem _ (List.mem_flatMap.mpr ⟨_, hmem, ih⟩)

theorem nodup_nodeIds_children {r c : Node} (hn : (nodeIds r).Nodup)
    (hc : c ∈ r.children) : (nodeIds c).Nodup := by
  rw [nodeIds_def] at hn
  exact (List.nodup_flatMap.mp (List.nodup_cons.mp hn).2).1 c hc

theorem nodeIds_children_disjoint {r ca cb : Node} (hn : (nodeIds r).Nodup)
    (ha : ca ∈ r.children) (hb : cb ∈ r.children) (hne : ca ≠ cb) :
    ∀ x ∈ nodeIds ca, x ∉ nodeIds cb := by
  rw [nodeIds_def] at hn
  have hpw := (List.nodup_flatMap.mp (List.nodup_cons.mp hn).2).2
  have hsym : Symmetric (Function.onFun List.Disjoint nodeIds) := by
    intro x y hxy a hax hay
    exact hxy hay hax
  exact fun x hx hx2 => hpw.forall hsym ha hb hne hx hx2

theorem PathPair.unique {r n : Node} {a b : List Node}
    (hn : (nodeIds r).Nodup) (ha : PathPair r n a) (hb : PathPair r n b) :
    a = b := by
  cases ha with
  | here =>
    cases hb with
    | here => rfl
    | step hcb hpb =>
      have h1 := hpb.le_sizeOf
      have h2 := sizeOf_lt_of_mem_children hcb
      omega
  | step hca hpa =>
    cases hb with
    | here =>
      have h1 := hpa.le_sizeOf
      have h2 := sizeOf_lt_of_mem_children hca
      omega
    | step hcb hpb =>
      rename_i ca anca cb ancb
      by_cases hcc : ca = cb
      · subst hcc
        rw [PathPair.unique (nodup_nodeIds_children hn hca) hpa hpb]
      · exact absurd hpb.id_mem
          (nodeIds_children_disjoint hn hca hcb hcc _ hpa.id_mem)
termination_by sizeOf r
decreasing_by exact sizeOf_lt_of_mem_children hca

/-- Claim C1: the specification promises that a record P with one direct
record-typed field holding a record C is traversed as [P, C] (pre-order
DFS), [C, P] (post-order DFS) and [P, C] (BFS).  On the code this fails
for all three modes at the same failing input P(C()): discovery reads the
child from asdict(P instance), which has already turned the C instance
into a plain dict, so _create_node_from_item raises ValueError while the
tree is being built and no element is ever produced. -/
theorem claim_c1_two_node_example_fails :
    iterate_over_data_class 5 pInst .preOrderDepthFirstSearch =
        .error .valueError ∧
      iterate_over_data_class 5 pInst .postOrderDepthFirstSearch =
        .error .valueError ∧
      iterate_over_data_class 5 pInst .breadFirstSearch = .error .valueError :=
  ⟨rfl, rfl, rfl⟩

/-- Claim C3: the specification promises that all five traversal modes
emit the same set of nodes.  On the code this fails already for
Simple(1, 2, 3), whose tree is a single node: BFS emits that node, but
every DFS-based mode raises TypeError, because _build_queue calls
stack.pop(node) on a deque whose pop method accepts no argument (and
would return a fresh empty deque even without the crash). -/
theorem claim_c3_modes_disagree :
    iterate_over_data_class 5 simpleInst .breadFirstSearch =
        .ok [⟨.mk ⟨simpleInst, Option.none, Option.none⟩ 0 [], []⟩] ∧
      iterate_over_data_class 5 simpleInst .preOrderDepthFirstSearch =
        .error .typeError ∧
      iterate_over_data_class 5 simpleInst .postOrderDepthFirstSearch =
        .error .typeError ∧
      iterate_over_data_class 5 simpleInst .reversePreOrderDepthFirstSearch =
        .error .typeError ∧
      iterate_over_data_class 5 simpleInst .reversePostOrderDepthFirstSearch =
        .error .typeError :=
  ⟨rfl, rfl, rfl, rfl, rfl⟩

/-- Claim C4: the specification promises that each reverse DFS sequence
is the element-for-element reversal of the corresponding forward DFS
sequence.  On the code no DFS mode produces a sequence at all: on the
two-node tree P over C all four DFS variants raise TypeError out of
stack.pop(node), before the reversal step of
_build_ordered_node_collection can run, while BFS shows the same tree
does have two nodes to emit. -/
theorem claim_c4_no_dfs_sequence_produced :
    iterForMode 5 twoTree .preOrderDepthFirstSearch = .error .typeError ∧
      iterForMode 5 twoTree .reversePreOrderDepthFirstSearch =
        .error .typeError ∧
      iterForMode 5 twoTree .postOrderDepthFirstSearch = .error .typeError ∧
      iterForMode 5 twoTree .reversePostOrderDepthFirstSearch =
        .error .typeError ∧
      iterForMode 5 twoTree .breadFirstSearch =
        .ok [⟨twoTree.root, []⟩,
          ⟨.mk ⟨cInst, some fldChild, Option.none⟩ 0 [], [twoTree.root]⟩] :=
  ⟨rfl, rfl, rfl, rfl, rfl⟩

/-- Claim C5: the specification promises that several records are wrapped
in a synthetic un-iterated root, that traversal succeeds, that the
synthetic root is never emitted and that every emitted element derives
from a supplied record.  On the code the multi-record entry point
iterate_over_data_classes passes the whole sequence as one positional
argument, so the sequence itself (not a dataclass) reaches
create_tree_from_dataclass and ValueError is raised; and constructing
DataClassIterable directly with two positional records emits exactly one
element, the synthetic _RootNode instance itself, and nothing derived
from the supplied records (the nodes field is declared Iterable of str,
so discovery finds no children under it). -/
theorem claim_c5_synthetic_root_is_emitted :
    iterate_over_data_classes 6 (.pylist [recA, recB]) .breadFirstSearch =
        .error .valueError ∧
      dataClassIterableElements 6 [recA, recB] .breadFirstSearch =
        .ok [⟨.mk ⟨.dcinst rootNodeDef [.pylist [recA, recB]],
          Option.none, Option.none⟩ 0 [], []⟩] :=
  ⟨rfl, rfl⟩

/-- Claim C6: the specification promises that a field tagged with the
iteratedc_skip metadata key is excluded from both discovery passes.  The
code never reads field metadata during discovery
(_DO_NOT_ITERATE_OVER_NODE_ is only ever attached to _RootNode.nodes),
so on the instance Skip(C(), [C()]) whose two fields are both tagged,
discovery still yields one child for the record-typed field and one
child, at position 1, for the container field. -/
theorem claim_c6_skip_metadata_ignored :
    iterate_over_current_item skipInst =
      [⟨.pydict [], some fldChildSkip, Option.none⟩,
        ⟨.pydict [], some fldItemsSkip, some 1⟩] :=
  rfl

/-- Claim C8: supplying None or any non-dataclass value to any of the
three public entry points makes create_tree_from_dataclass return None
inside DataClassIterable.__init__, which raises ValueError there, before
any traversal structure exists and before any element is produced, for
every traversal mode and every recursion budget. -/
theorem claim_c8_invalid_root_raises_value_error (fuel : Nat) (v : PyVal)
    (mode : IterationMode) (h : is_dataclass v = false) :
    iterate_over_data_class fuel v mode = .error .valueError ∧
      iterate_over_data_classes fuel v mode = .error .valueError ∧
      flatten_hierarchy fuel v mode = .error .valueError := by
  have h1 : create_tree_from_dataclass fuel v = .ok Option.none := by
    cases v <;> simp_all [create_tree_from_dataclass, is_dataclass]
  have key : dataClassIterableElements fuel [v] mode = .error .valueError := by
    simp [dataClassIterableElements, dataClassIterableInit, h1]
  exact ⟨key, key, key⟩

/-- Witness for claim C8 at the concrete input None with BFS. -/
theorem claim_c8_witness :
    is_dataclass .none = false ∧
      (iterate_over_data_class 0 .none .breadFirstSearch =
          .error .valueError ∧
        iterate_over_data_classes 0 .none .breadFirstSearch =
          .error .valueError ∧
        flatten_hierarchy 0 .none .breadFirstSearch = .error .valueError) :=
  ⟨rfl, claim_c8_invalid_root_raises_value_error 0 .none .breadFirstSearch rfl⟩

/-- Claim C10: the discovery operation applied to None or to any
non-dataclass value yields the empty sequence; the source branch yields
from the empty list and raises nothing, and the embedding of discovery is
a total function. -/
theorem claim_c10_discovery_empty_on_non_record (v : PyVal)
    (h : v = .none ∨ is_dataclass v = false) :
    iterate_over_current_item v = [] := by
  cases v <;> first
    | rfl
    | (rcases h with h | h
       · exact absurd h (by simp)
       · simp [is_dataclass] at h)

/-- Claim C9: in every traversal mode that returns a sequence, each
emitted element carries as parent_nodes exactly the root-to-parent path
of its node (PathPair), and under distinct node identities that path is
unique, so the ancestor content of a node is independent of the emitting
mode.  The DFS-based modes never return a sequence (they raise), so the
property is carried entirely by BFS, whose stacks are built by appending
the dequeued parent. -/
theorem claim_c9_ancestors_are_root_to_parent_path (fuel : Nat) (t : Tree)
    (hids : (nodeIds t.root).Nodup) (mode : IterationMode)
    (elems : List NodeElement) (hrun : iterForMode fuel t mode = .ok elems)
    (e : NodeElement) (he : e ∈ elems) :
    PathPair t.root e.node e.parent_nodes ∧
      ∀ anc, PathPair t.root e.node anc → anc = e.parent_nodes := by
  cases mode with
  | breadFirstSearch =>
    simp only [iterForMode] at hrun
    cases hcoll : bfsCollection fuel t with
    | error err => rw [hcoll] at hrun; simp [Except.map] at hrun
    | ok coll =>
      rw [hcoll] at hrun
      simp only [Except.map, Except.ok.injEq] at hrun
      subst hrun
      obtain ⟨p, hp, rfl⟩ := List.mem_map.mp he
      have hstart : ∀ q ∈ [((t.root : Node), ([] : List Node))],
          PathPair t.root q.1 q.2 := by
        intro q hq
        rcases List.mem_singleton.mp hq with rfl
        exact PathPair.here t.root
      have hpp := bfsLoop_sound t.root fuel [(t.root, [])] [] [] coll hcoll
        hstart (by simp) p hp
      exact ⟨hpp, fun anc hanc => PathPair.unique hids hanc hpp⟩
  | preOrderDepthFirstSearch =>
    obtain ⟨err, herr⟩ := preOrderCollection_isError fuel t false
    simp [iterForMode, herr, Except.map] at hrun
  | postOrderDepthFirstSearch =>
    obtain ⟨err, herr⟩ := postOrderCollection_isError fuel t false
    simp [iterForMode, herr, Except.map] at hrun
  | reversePreOrderDepthFirstSearch =>
    obtain ⟨err, herr⟩ := preOrderCollection_isError fuel t true
    simp [iterForMode, herr, Except.map] at hrun
  | reversePostOrderDepthFirstSearch =>
    obtain ⟨err, herr⟩ := postOrderCollection_isError fuel t true
    simp [iterForMode, herr, Except.map] at hrun

/-- Witness for claim C9 on the one-node tree of Simple(1, 2, 3) under
BFS. -/
theorem claim_c9_witness :
    (nodeIds simpleTree.root).Nodup ∧
      iterForMode 2 simpleTree .breadFirstSearch =
        .ok [⟨simpleTree.root, []⟩] ∧
      (PathPair simpleTree.root simpleTree.root [] ∧
        ∀ anc, PathPair simpleTree.root simpleTree.root anc → anc = []) := by
  refine ⟨by decide, rfl, ?_⟩
  exact claim_c9_ancestors_are_root_to_parent_path 2 simpleTree (by decide)
    .breadFirstSearch [⟨simpleTree.root, []⟩] rfl ⟨simpleTree.root, []⟩
    (List.mem_singleton.mpr rfl)

theorem asdictVal_not_dcinst (v : PyVal) : is_dataclass (asdictVal v) = false := by
  cases v <;> simp [asdictVal, is_dataclass]

theorem iterElems_asdictVal_pylist (xs : List PyVal) :
    iterElems (asdictVal (.pylist xs)) = asdictValList xs := by
  simp [asdictVal, iterElems]

theorem mem_asdictValList {x : PyVal} {xs : List PyVal}
    (h : x ∈ asdictValList xs) : ∃ y, y ∈ xs ∧ x = asdictVal y := by
  induction xs with
  | nil => simp [asdictValList] at h
  | cons y ys ih =>
    simp only [asdictValList, List.mem_cons] at h
    rcases h with rfl | h2
    · exact ⟨y, List.mem_cons_self _ _, rfl⟩
    · obtain ⟨z, hz, rfl⟩ := ih h2
      exact ⟨z, List.mem_cons_of_mem _ hz, rfl⟩

theorem asdictValList_length (xs : List PyVal) :
    (asdictValList xs).length = xs.length := by
  induction xs with
  | nil => rfl
  | cons y ys ih => simp [asdictValList, ih]

theorem lookupName_asdictFields_not_dcinst (flds : List FieldDef)
    (vals : List PyVal) (key : String) :
    is_dataclass (lookupName (asdictFields flds vals) key) = false := by
  induction flds generalizing vals with
  | nil => cases vals <;> simp [asdictFields, lookupName, is_dataclass]
  | cons f fs ih =>
    cases vals with
    | nil => simp [asdictFields, lookupName, is_dataclass]
    | cons v vs =>
      simp only [asdictFields, lookupName]
      by_cases he : f.name = key
      · simp only [if_pos he]
        exact asdictVal_not_dcinst v
      · simp only [if_neg he]
        exact ih vs

theorem exists_zip_pair {α β : Type} :
    ∀ {l1 : List α} {l2 : List β} {a : α}, a ∈ l1 → l1.length = l2.length →
      ∃ b, (a, b) ∈ l1.zip l2 := by
  intro l1
  induction l1 with
  | nil => intro l2 a ha; simp at ha
  | cons x xs ih =>
    intro l2 a ha hlen
    cases l2 with
    | nil => simp at hlen
    | cons y ys =>
      rcases List.mem_cons.mp ha with rfl | ha2
      · exact ⟨y, List.mem_cons_self _ _⟩
      · obtain ⟨b, hb⟩ := ih ha2 (by simpa using hlen)
        exact ⟨b, List.mem_cons_of_mem _ hb⟩

theorem mem_enumFrom_snd {α : Type} {p : Nat × α} :
    ∀ {n : Nat} {xs : List α}, p ∈ enumFrom n xs → p.2 ∈ xs := by
  intro n xs
  induction xs generalizing n with
  | nil => intro h; simp [enumFrom] at h
  | cons x rest ih =>
    intro h
    simp only [enumFrom, List.mem_cons] at h
    rcases h with rfl | h2
    · exact List.mem_cons_self _ _
    · exact List.mem_cons_of_mem _ (ih h2)

theorem secondPassField_eq (dcv : List (String × PyVal)) (f : FieldDef) :
    secondPassField dcv f =
      if isSingleRecordContainerType f.ty then
        (enumFrom 1 (iterElems (lookupName dcv f.name))).map
          (fun p => ⟨p.2, some f, some p.1⟩)
      else [] := by
  cases hty : f.ty with
  | dcType nm =>
    simp [secondPassField, isSingleRecordContainerType,
      is_generic_collection_type, hty]
  | simple nm =>
    simp [secondPassField, isSingleRecordContainerType,
      is_generic_collection_type, hty]
  | generic o args =>
    cases args with
    | nil =>
      simp [secondPassField, isSingleRecordContainerType,
        is_generic_collection_type, hty]
    | cons t rest =>
      cases rest with
      | nil =>
        cases o with
        | false =>
          simp [secondPassField, isSingleRecordContainerType,
            is_generic_collection_type, hty]
        | true =>
          by_cases hd : is_dataclass_type t <;>
            simp [secondPassField, isSingleRecordContainerType,
              is_generic_collection_type, get_args, hty, hd]
      | cons t2 r2 =>
        cases o <;>
          simp [secondPassField, isSingleRecordContainerType,
            is_generic_collection_type, get_args, hty]

theorem lookupName_asdictFields (flds : List FieldDef) (vals : List PyVal)
    (hlen : flds.length = vals.length)
    (hnodup : (flds.map FieldDef.name).Nodup)
    {f : FieldDef} {v : PyVal} (hmem : (f, v) ∈ flds.zip vals) :
    lookupName (asdictFields flds vals) f.name = asdictVal v := by
  induction flds generalizing vals with
  | nil => simp at hmem
  | cons f0 fs ih =>
    cases vals with
    | nil => simp at hmem
    | cons v0 vs =>
      simp only [List.zip_cons_cons, List.mem_cons] at hmem
      rcases hmem with heq | hmem2
      · obtain ⟨rfl, rfl⟩ := Prod.mk.injEq .. |>.mp heq
        simp [asdictFields, lookupName]
      · have hne : f0.name ≠ f.name := by
          have hf : f ∈ fs := (List.of_mem_zip hmem2).1
          have hmn : f.name ∈ fs.map FieldDef.name :=
            List.mem_map_of_mem _ hf
          have h0 := (List.nodup_cons.mp hnodup).1
          intro he
          rw [he] at h0
          exact h0 hmn
        simp only [asdictFields, lookupName, if_neg hne]
        exact ih vs (by simpa using hlen) (List.nodup_cons.mp hnodup).2 hmem2

theorem firstPass_values_not_dcinst (cls : DataClassDef) (vals : List PyVal)
    {c : FieldValueWithMetaData}
    (h : c ∈ cls.flds.flatMap (firstPassField (asdictFields cls.flds vals))) :
    is_dataclass c.value = false := by
  obtain ⟨f, _, hc⟩ := List.mem_flatMap.mp h
  by_cases hd : is_dataclass_type f.ty
  · simp only [firstPassField, if_pos hd, List.mem_singleton] at hc
    subst hc
    exact lookupName_asdictFields_not_dcinst cls.flds vals f.name
  · simp [firstPassField, if_neg hd] at hc

theorem discovery_values_not_dcinst (cls : DataClassDef) (vals : List PyVal)
    (hlen : cls.flds.length = vals.length)
    (hnodup : (cls.flds.map FieldDef.name).Nodup)
    (hlists : ∀ p ∈ cls.flds.zip vals,
        isSingleRecordContainerType p.1.ty = true → ∃ xs, p.2 = .pylist xs)
    {c : FieldValueWithMetaData}
    (h : c ∈ iterate_over_current_item (.dcinst cls vals)) :
    is_dataclass c.value = false := by
  simp only [iterate_over_current_item] at h
  rcases List.mem_append.mp h with h1 | h2
  · exact firstPass_values_not_dcinst cls vals h1
  · obtain ⟨f, hf, hc⟩ := List.mem_flatMap.mp h2
    rw [secondPassField_eq] at hc
    by_cases hs : isSingleRecordContainerType f.ty
    · simp only [if_pos hs] at hc
      obtain ⟨p, hp, rfl⟩ := List.mem_map.mp hc
      have hmem := mem_enumFrom_snd hp
      obtain ⟨v, hv⟩ := exists_zip_pair hf hlen
      rw [lookupName_asdictFields cls.flds vals hlen hnodup hv] at hmem
      obtain ⟨xs, hxs⟩ := hlists (f, v) hv hs
      have hv2 : v = PyVal.pylist xs := hxs
      rw [hv2, iterElems_asdictVal_pylist] at hmem
      obtain ⟨y, _, hy⟩ := mem_asdictValList hmem
      show is_dataclass p.2 = false
      rw [hy]
      exact asdictVal_not_dcinst y
    · simp [if_neg hs] at hc

theorem create_node_from_item_not_dc (fuel : Nat)
    (c : FieldValueWithMetaData) (nid : Nat)
    (h : is_dataclass c.value = false) :
    create_node_from_item (fuel + 1) c nid = .error .valueError := by
  simp only [create_node_from_item]
  cases hv : c.value with
  | dcinst cls vals => rw [hv] at h; simp [is_dataclass] at h
  | none => rfl
  | int n => rfl
  | str s => rfl
  | boolv b => rfl
  | pylist xs => rfl
  | pydeque xs => rfl
  | pydict es => rfl

/-- Claim C2, corrected.  The claim as frozen is false: a container
field whose runtime value asdict merely deep-copies (a deque, for
example) keeps its dataclass elements, discovery yields genuine
dataclass instances for it, and construction succeeds - see the
counterexample theorem.  Amended claim: a record with a field declared
as a dataclass type, or - all of its single-record-container fields
holding list values - with such a field holding a non-empty list, never
becomes a tree: discovery reads every child from asdict(record), which
has already converted every directly nested dataclass instance, and
every element of a list-valued container, into a plain dict, and
_create_node_from_item rejects every such non-dataclass child with
ValueError.  The fuel bound 3 ≤ fuel only lets the recursion reach the
offending child; field names of a Python dataclass are distinct and the
value list matches the field list by construction. -/
theorem claim_c2_nested_record_construction_raises (fuel : Nat)
    (cls : DataClassDef) (vals : List PyVal) (hfuel : 3 ≤ fuel)
    (hlen : cls.flds.length = vals.length)
    (hnodup : (cls.flds.map FieldDef.name).Nodup)
    (htrigger :
      (∃ f ∈ cls.flds, is_dataclass_type f.ty = true) ∨
        ((∀ p ∈ cls.flds.zip vals,
            isSingleRecordContainerType p.1.ty = true →
              ∃ xs, p.2 = .pylist xs) ∧
          ∃ p ∈ cls.flds.zip vals,
            isSingleRecordContainerType p.1.ty = true ∧
              ∃ x xs, p.2 = .pylist (x :: xs))) :
    create_tree_from_dataclass fuel (.dcinst cls vals) = .error .valueError := by
  obtain ⟨k, rfl⟩ : ∃ k, fuel = k + 3 := ⟨fuel - 3, by omega⟩
  have key : ∃ c0 rest,
      iterate_over_current_item (.dcinst cls vals) = c0 :: rest ∧
        is_dataclass c0.value = false := by
    rcases htrigger with ⟨f, hf, hdc⟩ |
      ⟨hlists, ⟨f, v⟩, hmem, hcont, x, xs, hv⟩
    · have hne : cls.flds.flatMap
          (firstPassField (asdictFields cls.flds vals)) ≠ [] := by
        intro hnil
        rw [List.flatMap_eq_nil_iff] at hnil
        have h1 := hnil f hf
        simp [firstPassField, hdc] at h1
      obtain ⟨c0, rest1, h1⟩ : ∃ c0 rest1, cls.flds.flatMap
          (firstPassField (asdictFields cls.flds vals)) = c0 :: rest1 := by
        cases hl : cls.flds.flatMap
            (firstPassField (asdictFields cls.flds vals)) with
        | nil => exact absurd hl hne
        | cons c0 rest1 => exact ⟨c0, rest1, rfl⟩
      refine ⟨c0, rest1 ++ cls.flds.flatMap
        (secondPassField (asdictFields cls.flds vals)), ?_, ?_⟩
      · simp only [iterate_over_current_item, h1, List.cons_append]
      · exact firstPass_values_not_dcinst cls vals
          (h1 ▸ List.mem_cons_self _ _)
    · have hf : f ∈ cls.flds := (List.of_mem_zip hmem).1
      have hdisc : iterate_over_current_item (.dcinst cls vals) ≠ [] := by
        simp only [iterate_over_current_item]
        intro hnil
        obtain ⟨hleft, hright⟩ := List.append_eq_nil.mp hnil
        have h1 : secondPassField (asdictFields cls.flds vals) f = [] := by
          rw [List.flatMap_eq_nil_iff] at hright
          exact hright f hf
        have hv2 : v = PyVal.pylist (x :: xs) := hv
        rw [secondPassField_eq, if_pos hcont,
          lookupName_asdictFields cls.flds vals hlen hnodup hmem, hv2] at h1
        simp [asdictVal, iterElems, asdictValList, enumFrom] at h1
      obtain ⟨c0, rest, hlist⟩ : ∃ c0 rest,
          iterate_over_current_item (.dcinst cls vals) = c0 :: rest := by
        cases hl : iterate_over_current_item (.dcinst cls vals) with
        | nil => exact absurd hl hdisc
        | cons c0 rest => exact ⟨c0, rest, rfl⟩
      exact ⟨c0, rest, hlist,
        discovery_values_not_dcinst cls vals hlen hnodup hlists
          (hlist ▸ List.mem_cons_self _ _)⟩
  obtain ⟨c0, rest, hlist, hc0⟩ := key
  have hchild : create_node_from_item (k + 1) c0 0 = .error .valueError :=
    create_node_from_item_not_dc k c0 0 hc0
  have hnodes : create_nodes_from_items (k + 2) (c0 :: rest) 0 =
      .error .valueError := by
    have hstep : create_nodes_from_items ((k + 1) + 1) (c0 :: rest) 0 =
        match create_node_from_item (k + 1) c0 0 with
        | .error e => (.error e : Except PyError (List Node × Nat))
        | .ok (n, nid1) =>
          match create_nodes_from_items (k + 1) rest nid1 with
          | .error e => .error e
          | .ok (ns, nid2) => .ok (n :: ns, nid2) := rfl
    rw [show k + 2 = (k + 1) + 1 from rfl, hstep, hchild]
  have hroot : create_node_from_item (k + 3)
      ⟨.dcinst cls vals, Option.none, Option.none⟩ 0 = .error .valueError := by
    have hstep : create_node_from_item ((k + 2) + 1)
        ⟨.dcinst cls vals, Option.none, Option.none⟩ 0 =
        match create_nodes_from_items (k + 2)
            (iterate_over_current_item (.dcinst cls vals)) 0 with
        | .error e => .error e
        | .ok (children, nid1) =>
          .ok (.mk ⟨.dcinst cls vals, Option.none, Option.none⟩ nid1 children,
            nid1 + 1) := rfl
    rw [show k + 3 = (k + 2) + 1 from rfl, hstep, hlist, hnodes]
  simp only [create_tree_from_dataclass, hroot]

/-- Counterexample to claim C2 as frozen: the record D(deque([C()]))
has a field whose declared type is a single-parameter container of the
dataclass C with a non-empty runtime value, yet tree construction does
not raise - it returns a two-node tree.  asdict deep-copies the deque
unconverted, so discovery hands _create_node_from_item a genuine
dataclass instance and the recursion succeeds.  The first conjuncts
spell out that the input satisfies the claim's hypothesis. -/
theorem claim_c2_counterexample :
    is_generic_collection_type fldItems3.ty = true ∧
      get_args fldItems3.ty = [.dcType "C"] ∧
      iterElems (.pydeque [cInst]) = [cInst] ∧
      create_tree_from_dataclass 5 dqInst =
        .ok (some ⟨.mk ⟨dqInst, Option.none, Option.none⟩ 1
          [.mk ⟨cInst, some fldItems3, some 1⟩ 0 []]⟩) :=
  ⟨rfl, rfl, rfl, rfl⟩

/-- Witness for the amended claim C2 at the concrete record P(C()) with
fuel 3, through the direct record-typed-field disjunct. -/
theorem claim_c2_witness :
    (3 ≤ 3 ∧ clsP.flds.length = [cInst].length ∧
        (clsP.flds.map FieldDef.name).Nodup ∧
        fldChild ∈ clsP.flds ∧ is_dataclass_type fldChild.ty = true) ∧
      create_tree_from_dataclass 3 pInst = .error .valueError := by
  refine ⟨⟨le_refl 3, rfl, by decide, by simp [clsP], rfl⟩, ?_⟩
  exact claim_c2_nested_record_construction_raises 3 clsP [cInst]
    (le_refl 3) rfl (by decide)
    (Or.inl ⟨fldChild, by simp [clsP], rfl⟩)

theorem mapOverFlatMap {α β γ : Type} (l : List α) (f : α → List β)
    (g : β → γ) : (l.flatMap f).map g = l.flatMap fun x => (f x).map g := by
  induction l with
  | nil => rfl
  | cons a as ih => simp [List.flatMap_cons, ih]

theorem flatMapCongr {α β : Type} {l : List α} {f g : α → List β}
    (h : ∀ x ∈ l, f x = g x) : l.flatMap f = l.flatMap g := by
  induction l with
  | nil => rfl
  | cons a as ih =>
    simp only [List.flatMap_cons]
    rw [h a (List.mem_cons_self _ _),
      ih fun x hx => h x (List.mem_cons_of_mem _ hx)]

theorem flatMapZipFst {α β γ : Type} :
    ∀ (l1 : List α) (l2 : List β), l1.length = l2.length →
      ∀ f : α → List γ, l1.flatMap f = (l1.zip l2).flatMap fun p => f p.1 := by
  intro l1
  induction l1 with
  | nil => intro l2 hlen f; rfl
  | cons a as ih =>
    intro l2 hlen f
    cases l2 with
    | nil => simp at hlen
    | cons b bs =>
      simp only [List.zip_cons_cons, List.flatMap_cons]
      rw [ih bs (by simpa using hlen)]

theorem flatMapIfSingleton {α β : Type} (l : List α) (P : α → Bool)
    (h : α → β) :
    (l.flatMap fun x => if P x then [h x] else []) = (l.filter P).map h := by
  induction l with
  | nil => rfl
  | cons a as ih =>
    by_cases hp : P a <;>
      simp [List.flatMap_cons, List.filter_cons, hp, ih]

theorem zipFilterFst {α β γ : Type} :
    ∀ (l1 : List α) (l2 : List β), l1.length = l2.length →
      ∀ (P : α → Bool) (g : α → γ),
        ((l1.zip l2).filter fun p => P p.1).map (fun p => g p.1) =
          (l1.filter P).map g := by
  intro l1
  induction l1 with
  | nil => intro l2 hlen P g; rfl
  | cons a as ih =>
    intro l2 hlen P g
    cases l2 with
    | nil => simp at hlen
    | cons b bs =>
      by_cases hp : P a <;>
        simp [List.zip_cons_cons, List.filter_cons, hp,
          ih bs (by simpa using hlen)]

theorem enumFromMapFst {α β γ : Type} :
    ∀ (xs : List α) (ys : List β) (n : Nat), xs.length = ys.length →
      ∀ g : Nat → γ,
        (enumFrom n xs).map (fun p => g p.1) =
          (enumFrom n ys).map (fun p => g p.1) := by
  intro xs
  induction xs with
  | nil =>
    intro ys n hlen g
    cases ys with
    | nil => rfl
    | cons y yt => simp at hlen
  | cons x xt ih =>
    intro ys n hlen g
    cases ys with
    | nil => simp at hlen
    | cons y yt =>
      simp only [enumFrom, List.map_cons]
      rw [ih yt (n + 1) (by simpa using hlen)]

/-- Claim C7: discovery is two passes over the declared fields in order.
The first pass yields, per record-typed field, one child at position
None; the second pass yields, per generic container field with exactly
one type argument that is a record type, one child per element of the
runtime value with 1-based positions; generic fields with several type
arguments yield nothing in either pass.  The equation projects each
discovered child to its originating field and position, the two aspects
the claim describes, and compares against the definition written from
the specification text; the hypotheses state what Python guarantees for
a dataclass instance (values aligned with the declared fields, distinct
field names) and that container fields hold list values (anything
non-iterable would raise TypeError inside the source generator). -/
theorem claim_c7_two_pass_discovery_order (cls : DataClassDef)
    (vals : List PyVal) (hlen : cls.flds.length = vals.length)
    (hnodup : (cls.flds.map FieldDef.name).Nodup)
    (hlists : ∀ p ∈ cls.flds.zip vals,
        isSingleRecordContainerType p.1.ty = true → ∃ xs, p.2 = .pylist xs) :
    (iterate_over_current_item (.dcinst cls vals)).map
        (fun c => (c.corresponding_field, c.field_index)) =
      specDiscoveryPairs (cls.flds.zip vals) := by
  simp only [iterate_over_current_item, specDiscoveryPairs, List.map_append]
  have hfirst : (cls.flds.flatMap
        (firstPassField (asdictFields cls.flds vals))).map
          (fun c => (c.corresponding_field, c.field_index)) =
      (((cls.flds.zip vals).filter fun p => is_dataclass_type p.1.ty).map
        fun p => ((some p.1 : Option FieldDef), (Option.none : Option Nat))) := by
    rw [mapOverFlatMap]
    have h1 : ∀ f ∈ cls.flds,
        (firstPassField (asdictFields cls.flds vals) f).map
            (fun c => (c.corresponding_field, c.field_index)) =
          if is_dataclass_type f.ty then
            [((some f : Option FieldDef), (Option.none : Option Nat))]
          else [] := by
      intro f _
      by_cases hd : is_dataclass_type f.ty <;> simp [firstPassField, hd]
    rw [flatMapCongr h1, flatMapIfSingleton,
      ← zipFilterFst cls.flds vals hlen]
  have hsecond : (cls.flds.flatMap
        (secondPassField (asdictFields cls.flds vals))).map
          (fun c => (c.corresponding_field, c.field_index)) =
      (cls.flds.zip vals).flatMap fun p =>
        if isSingleRecordContainerType p.1.ty then
          (enumFrom 1 (iterElems p.2)).map fun q =>
            ((some p.1 : Option FieldDef), (some q.1 : Option Nat))
        else [] := by
    rw [mapOverFlatMap, flatMapZipFst cls.flds vals hlen]
    apply flatMapCongr
    intro p hp
    obtain ⟨f, v⟩ := p
    by_cases hs : isSingleRecordContainerType f.ty
    · rw [secondPassField_eq, if_pos hs, if_pos hs,
        lookupName_asdictFields cls.flds vals hlen hnodup hp]
      obtain ⟨xs, hxs⟩ := hlists (f, v) hp hs
      have hv2 : v = PyVal.pylist xs := hxs
      subst hv2
      simp only [iterElems_asdictVal_pylist, List.map_map]
      exact enumFromMapFst (asdictValList xs) (iterElems (PyVal.pylist xs)) 1
        (by simpa [iterElems] using asdictValList_length xs)
        (fun i => (some f, some i))
    · rw [secondPassField_eq, if_neg hs, if_neg hs]
      rfl
  rw [hfirst, hsecond]

/-- Witness for claim C7 at the concrete record
H(C(), [C(), C(), C()], [C()], 5). -/
theorem claim_c7_witness :
    (clsH.flds.length =
        ([cInst, .pylist [cInst, cInst, cInst], .pylist [cInst],
          .int 5] : List PyVal).length ∧
      (clsH.flds.map FieldDef.name).Nodup ∧
      (∀ p ∈ clsH.flds.zip
          [cInst, .pylist [cInst, cInst, cInst], .pylist [cInst], .int 5],
        isSingleRecordContainerType p.1.ty = true →
          ∃ xs, p.2 = PyVal.pylist xs)) ∧
    (iterate_over_current_item hInst).map
        (fun c => (c.corresponding_field, c.field_index)) =
      specDiscoveryPairs (clsH.flds.zip
        [cInst, .pylist [cInst, cInst, cInst], .pylist [cInst], .int 5]) := by
  have hlists : ∀ p ∈ clsH.flds.zip
      [cInst, .pylist [cInst, cInst, cInst], .pylist [cInst], .int 5],
      isSingleRecordContainerType p.1.ty = true →
        ∃ xs, p.2 = PyVal.pylist xs := by
    intro p hp hc
    simp only [clsH, fldChild, fldItems3, fldPair, fldNum,
      List.zip_cons_cons, List.zip_nil_right, List.mem_cons] at hp
    rcases hp with rfl | rfl | rfl | rfl | hp
    · simp [isSingleRecordContainerType] at hc
    · exact ⟨[cInst, cInst, cInst], rfl⟩
    · simp [isSingleRecordContainerType] at hc
    · simp [isSingleRecordContainerType] at hc
    · simp at hp
  refine ⟨⟨rfl, by decide, hlists⟩, ?_⟩
  exact claim_c7_two_pass_discovery_order clsH
    [cInst, .pylist [cInst, cInst, cInst], .pylist [cInst], .int 5]
    rfl (by decide) hlists

/-- Witness for claim C10 at the concrete input None. -/
theorem claim_c10_witness :
    ((PyVal.none = PyVal.none ∨ is_dataclass .none = false) ∧
      iterate_over_current_item .none = []) :=
  ⟨Or.inl rfl, claim_c10_discovery_empty_on_non_record .none (Or.inl rfl)⟩

end Iteratedc
